import Mathlib

/-!
# Verification of `static-sync-pool`

A shallow embedding of the Go package `staticsyncpool` (a wrapper around
`sync.Pool` that keeps a static number of items pinned against garbage
collection) and proofs of the specification claims about it.

Modelling conventions:

* The pool stores pointers; we model a pointer as a `Nat` identifier into a
  `heap : List V` of allocated instances.  `newFunc` (the factory) always
  allocates a fresh default-valued instance, so `heap.length` is exactly the
  number of factory calls made so far.
* `sync.Pool` gives no ordering guarantees; we model it as a deterministic
  LIFO stack of identifiers (`internalPool`), a refinement that the claims do
  not depend on.  `sync.Pool.Get` on an empty pool calls the pool's `New`
  function, i.e. the factory.
* `runtime.Pinner` is the retention set: `pinned` is the append-only list of
  pinned identifiers; `Unpin` clears it in one batch.
* `atomic.Int64` / `atomic.Bool` become plain `Int` / `Bool` fields, with the
  operations rendered as sequential state passing (the sequential semantics of
  the Go code).
* Go's `int` is modelled as `Int` so that negative `staticSize` values behave
  as in the source (`for i := 0; i < staticSize` runs `staticSize.toNat`
  times, while `lazySize.Add(int64(staticSize))` adds the signed value).
-/

namespace StaticSyncPool

/-- The `config` struct: `staticSize int` and `lazy bool`. -/
structure Config where
  staticSize : Int
  lazy : Bool
  deriving Repr, DecidableEq

/-- `defaultConfig()` returns `{staticSize: 100, lazy: false}`. -/
def defaultConfig : Config := { staticSize := 100, lazy := false }

/-- `WithStaticSize(staticSize int)`: sets `c.staticSize = staticSize`
(no validation of the argument). -/
def WithStaticSize (staticSize : Int) : Config → Config :=
  fun c => { c with staticSize := staticSize }

/-- `WithLazy(lazy bool)`: sets `c.lazy = lazy`. -/
def WithLazy (lazy : Bool) : Config → Config :=
  fun c => { c with lazy := lazy }

/-- `New` applies the options in argument order to the default config:
`for _, opt := range opts { opt.apply(config) }`. -/
def applyOpts (opts : List (Config → Config)) (c : Config) : Config :=
  opts.foldl (fun c opt => opt c) c

/-- The state of a `Pool[*T]` (`T` has value type `V`):
`heap` is the set of instances ever produced by the factory (slot `i` holds
the current value of instance `i`; `heap.length` counts factory calls),
`pinned` is the `runtime.Pinner`'s set of pinned identifiers,
`internalPool` the contents of the wrapped `sync.Pool` (LIFO),
`lazySize` the `atomic.Int64` counter and `closed` the `atomic.Bool` flag. -/
structure PoolState (V : Type) where
  config : Config
  heap : List V
  pinned : List Nat
  internalPool : List Nat
  lazySize : Int
  closed : Bool
  deriving Repr, DecidableEq

variable {V : Type}

/-- A call to `newFunc`: allocate a fresh default-valued instance and return
its identifier. -/
def allocNew (dflt : V) (s : PoolState V) : Nat × PoolState V :=
  (s.heap.length, { s with heap := s.heap ++ [dflt] })

/-- `p.internalPool.Get()`: pop an item if one is present, otherwise the
`sync.Pool` calls its `New` function, which calls `newFunc`. -/
def syncPoolGet (dflt : V) (s : PoolState V) : Nat × PoolState V :=
  match s.internalPool with
  | [] => allocNew dflt s
  | id :: rest => (id, { s with internalPool := rest })

/-- `p.internalPool.Put(item)`: push the item back. -/
def syncPoolPut (s : PoolState V) (id : Nat) : PoolState V :=
  { s with internalPool := id :: s.internalPool }

/-- `p.pinner.Pin(item)`: add the item to the retention set. -/
def pinnerPin (s : PoolState V) (id : Nat) : PoolState V :=
  { s with pinned := s.pinned ++ [id] }

/-- `p.pinner.Unpin()`: drop every pin in one batch. -/
def pinnerUnpin (s : PoolState V) : PoolState V :=
  { s with pinned := [] }

/-- `resetFunc(item)` mutates the instance through its pointer: apply `f` to
heap slot `id` (identifiers produced by allocation are always in range). -/
def heapModify (f : V → V) : Nat → List V → List V
  | _, [] => []
  | 0, v :: rest => f v :: rest
  | n + 1, v :: rest => v :: heapModify f n rest

/-- The body of `init`'s eager loop, run `n` times:
`item := p.newFunc(); p.pinner.Pin(item); p.internalPool.Put(item)`. -/
def initLoop (dflt : V) : Nat → PoolState V → PoolState V
  | 0, s => s
  | n + 1, s =>
    let acq := allocNew dflt s
    let s1 := pinnerPin acq.2 acq.1
    let s2 := syncPoolPut s1 acq.1
    initLoop dflt n s2

namespace Pool

/-- `Pool.init`: store 0 into `lazySize`; if lazy, return; otherwise run the
eager loop `staticSize` times (zero times when `staticSize ≤ 0`) and then add
`staticSize` to `lazySize`. -/
def init (dflt : V) (s : PoolState V) : PoolState V :=
  let s0 : PoolState V := { s with lazySize := 0 }
  if s0.config.lazy then s0
  else
    let s1 := initLoop dflt s0.config.staticSize.toNat s0
    { s1 with lazySize := s1.lazySize + s1.config.staticSize }

/-- `Pool.Get`: if closed, just allocate; otherwise acquire from the internal
pool; if non-lazy return as-is; if lazy, pin and count only while
`lazySize < staticSize`. -/
def Get (dflt : V) (s : PoolState V) : Nat × PoolState V :=
  if s.closed then
    allocNew dflt s
  else
    let acq := syncPoolGet dflt s
    let item := acq.1
    let s1 := acq.2
    if !s1.config.lazy then (item, s1)
    else
      let currentLazySize := s1.lazySize
      if currentLazySize ≥ s1.config.staticSize then (item, s1)
      else
        let s2 := pinnerPin s1 item
        let s3 := { s2 with lazySize := s2.lazySize + 1 }
        (item, s3)

/-- `Pool.Put`: run `resetFunc` on the item, then return it to the internal
pool. -/
def Put (reset : V → V) (s : PoolState V) (id : Nat) : PoolState V :=
  let s1 := { s with heap := heapModify reset id s.heap }
  syncPoolPut s1 id

/-- `Pool.Reset` (the mutex serialises concurrent resets; sequentially it is
invisible): close the pool, unpin everything, force `lazy = true`,
re-run `init`, reopen. -/
def Reset (dflt : V) (s : PoolState V) : PoolState V :=
  let s1 : PoolState V := { s with closed := true }
  let s2 := pinnerUnpin s1
  let s3 : PoolState V := { s2 with config := { s2.config with lazy := true } }
  let s4 := init dflt s3
  { s4 with closed := false }

end Pool

/-- `New(newFunc, resetFunc, opts...)`: fold the options over the default
config, build the pool with empty pinner and empty internal pool, and run
`init`.  (`newFunc` and `resetFunc` are fixed closures; they appear as the
`dflt` / `reset` parameters of the individual operations.) -/
def New (dflt : V) (opts : List (Config → Config)) : PoolState V :=
  let config := applyOpts opts defaultConfig
  let s : PoolState V :=
    { config := config, heap := [], pinned := [], internalPool := [],
      lazySize := 0, closed := false }
  Pool.init dflt s

/-- `n` consecutive `Get` calls, collecting the returned identifiers. -/
def getN (dflt : V) : Nat → PoolState V → List Nat × PoolState V
  | 0, s => ([], s)
  | n + 1, s =>
    let fst := Pool.Get dflt s
    let rest := getN dflt n fst.2
    (fst.1 :: rest.1, rest.2)

/-- `Put` each identifier back, in order. -/
def putAll (reset : V → V) (ids : List Nat) (s : PoolState V) : PoolState V :=
  ids.foldl (Pool.Put reset) s

/-- A client operation other than `Reset`. -/
inductive Op where
  | get
  | put (id : Nat)
  deriving Repr, DecidableEq

/-- Run a sequence of `Get`/`Put` operations sequentially. -/
def runOps (dflt : V) (reset : V → V) : List Op → PoolState V → PoolState V
  | [], s => s
  | Op.get :: rest, s => runOps dflt reset rest (Pool.Get dflt s).2
  | Op.put id :: rest, s => runOps dflt reset rest (Pool.Put reset s id)

/-! ## Basic lemmas about the embedded operations -/

theorem syncPoolGet_nil (dflt : V) (s : PoolState V) (h : s.internalPool = []) :
    syncPoolGet dflt s = allocNew dflt s := by
  unfold syncPoolGet
  rw [h]

theorem syncPoolGet_cons (dflt : V) (s : PoolState V) (id : Nat) (rest : List Nat)
    (h : s.internalPool = id :: rest) :
    syncPoolGet dflt s = (id, { s with internalPool := rest }) := by
  unfold syncPoolGet
  rw [h]

theorem syncPoolGet_frame (dflt : V) (s : PoolState V) :
    (syncPoolGet dflt s).2.config = s.config ∧
    (syncPoolGet dflt s).2.lazySize = s.lazySize ∧
    (syncPoolGet dflt s).2.pinned = s.pinned ∧
    (syncPoolGet dflt s).2.closed = s.closed := by
  cases h : s.internalPool with
  | nil => rw [syncPoolGet_nil dflt s h]; simp [allocNew]
  | cons id rest => rw [syncPoolGet_cons dflt s id rest h]; simp

/-- Running the eager loop `n` times appends `n` default-valued instances to
the heap, pins their identifiers in allocation order, and pushes them onto
the internal pool (so the pool holds them in reverse order). -/
theorem initLoop_spec (dflt : V) (n : Nat) (s : PoolState V) :
    initLoop dflt n s =
      { s with
        heap := s.heap ++ List.replicate n dflt,
        pinned := s.pinned ++ List.range' s.heap.length n,
        internalPool := (List.range' s.heap.length n).reverse ++ s.internalPool } := by
  induction n generalizing s with
  | zero => simp [initLoop]
  | succ n ih =>
    rw [initLoop]
    simp only [allocNew, pinnerPin, syncPoolPut]
    rw [ih]
    simp only [List.length_append, List.length_singleton]
    rw [List.range'_succ, List.replicate_succ]
    simp [List.append_assoc, List.reverse_cons]

theorem init_config (dflt : V) (s : PoolState V) :
    (Pool.init dflt s).config = s.config ∧
    (Pool.init dflt s).lazySize =
      (if s.config.lazy then 0 else s.config.staticSize) ∧
    (Pool.init dflt s).closed = s.closed := by
  unfold Pool.init
  by_cases h : s.config.lazy <;> simp [h, initLoop_spec]

theorem new_config (dflt : V) (opts : List (Config → Config)) :
    (New dflt opts).config = applyOpts opts defaultConfig ∧
    (New dflt opts).lazySize =
      (if (applyOpts opts defaultConfig).lazy then 0
       else (applyOpts opts defaultConfig).staticSize) ∧
    (New dflt opts).closed = false := by
  unfold New
  exact init_config dflt _

theorem getD_replicate_self (dflt : V) (n id : Nat) :
    (List.replicate n dflt).getD id dflt = dflt := by
  induction n generalizing id with
  | zero => simp
  | succ m ih =>
    cases id with
    | zero => simp [List.replicate_succ]
    | succ i => simp [List.replicate_succ, ih]

/-- An eager `New` (any option list yielding `lazy = false` and
`staticSize = N ≥ 0`) produces: `N` factory calls, instances `0..N-1` all
default-valued and pinned in order, the internal pool holding exactly those
`N` instances, and `lazySize = N`. -/
theorem new_eager_state (dflt : V) (opts : List (Config → Config)) (N : Nat)
    (hlazy : (applyOpts opts defaultConfig).lazy = false)
    (hsize : (applyOpts opts defaultConfig).staticSize = (N : Int)) :
    New dflt opts =
      { config := applyOpts opts defaultConfig,
        heap := List.replicate N dflt,
        pinned := List.range N,
        internalPool := (List.range N).reverse,
        lazySize := (N : Int),
        closed := false } := by
  unfold New Pool.init
  simp only [hlazy, hsize, Bool.false_eq_true, if_false, initLoop_spec]
  simp [List.range_eq_range', hsize, hlazy]

/-- On a non-closed, non-lazy pool whose internal pool holds at least `n`
items, `n` consecutive `Get`s pop exactly the first `n` items and change
nothing else. -/
theorem getN_eager (dflt : V) (n : Nat) (s : PoolState V)
    (hclosed : s.closed = false) (hlazy : s.config.lazy = false)
    (hlen : n ≤ s.internalPool.length) :
    getN dflt n s =
      (s.internalPool.take n, { s with internalPool := s.internalPool.drop n }) := by
  induction n generalizing s with
  | zero => simp [getN]
  | succ n ih =>
    cases hip : s.internalPool with
    | nil => rw [hip] at hlen; simp at hlen
    | cons id rest =>
      rw [getN]
      have hget : Pool.Get dflt s = (id, { s with internalPool := rest }) := by
        unfold Pool.Get
        rw [hclosed]
        simp only [Bool.false_eq_true, if_false]
        rw [syncPoolGet_cons dflt s id rest hip]
        simp [hlazy, hclosed]
      rw [hget]
      have hlen' : n ≤ rest.length := by
        rw [hip] at hlen; simpa using hlen
      rw [ih { s with internalPool := rest } hclosed hlazy hlen']
      simp [hip]

/-! ## Claim theorems -/

/-- C1: an eager pool (`lazy = false`, non-negative `staticSize = N`) makes
exactly `N` factory calls in `New`, pins each produced instance, places
exactly those `N` instances into the reuse pool, and sets the retained count
to `N`; `N` consecutive `Get`s then return distinct default-valued instances
and cause no further factory calls. -/
theorem eager_construction_spec (dflt : V) (opts : List (Config → Config)) (N : Nat)
    (hlazy : (applyOpts opts defaultConfig).lazy = false)
    (hsize : (applyOpts opts defaultConfig).staticSize = (N : Int)) :
    (New dflt opts).heap.length = N ∧
    (New dflt opts).pinned = List.range N ∧
    (New dflt opts).internalPool = (List.range N).reverse ∧
    (New dflt opts).lazySize = (N : Int) ∧
    (getN dflt N (New dflt opts)).1.Nodup ∧
    (∀ id ∈ (getN dflt N (New dflt opts)).1,
      (getN dflt N (New dflt opts)).2.heap.getD id dflt = dflt) ∧
    (getN dflt N (New dflt opts)).2.heap.length = N := by
  have hnew := new_eager_state dflt opts N hlazy hsize
  have hc : (New dflt opts).closed = false := by rw [hnew]
  have hl : (New dflt opts).config.lazy = false := by rw [hnew]; exact hlazy
  have hlen : N ≤ (New dflt opts).internalPool.length := by rw [hnew]; simp
  have hget := getN_eager dflt N (New dflt opts) hc hl hlen
  have hids : (getN dflt N (New dflt opts)).1 = (List.range N).reverse := by
    rw [hget, hnew]
    simp
  refine ⟨by rw [hnew]; simp, by rw [hnew], by rw [hnew], by rw [hnew], ?_, ?_, ?_⟩
  · rw [hids]
    simp [List.nodup_range]
  · intro id _
    rw [hget]
    simp only [hnew]
    exact getD_replicate_self dflt N id
  · rw [hget]
    simp only [hnew]
    simp

theorem eager_construction_witness :
    (New (0 : Int) [WithLazy false, WithStaticSize 2]).heap.length = 2 ∧
    (New (0 : Int) [WithLazy false, WithStaticSize 2]).pinned = List.range 2 ∧
    (New (0 : Int) [WithLazy false, WithStaticSize 2]).internalPool =
      (List.range 2).reverse ∧
    (New (0 : Int) [WithLazy false, WithStaticSize 2]).lazySize = ((2 : Nat) : Int) ∧
    (getN 0 2 (New (0 : Int) [WithLazy false, WithStaticSize 2])).1.Nodup ∧
    (∀ id ∈ (getN 0 2 (New (0 : Int) [WithLazy false, WithStaticSize 2])).1,
      (getN 0 2 (New (0 : Int) [WithLazy false, WithStaticSize 2])).2.heap.getD id 0 = 0) ∧
    (getN 0 2 (New (0 : Int) [WithLazy false, WithStaticSize 2])).2.heap.length = 2 :=
  eager_construction_spec 0 [WithLazy false, WithStaticSize 2] 2 rfl rfl

/-- C2: on a non-quiesced lazy pool, `Get` acquires from the reuse pool and
then either leaves the retained count and the pin/retention set unchanged
(when the count already meets `staticSize`) or pins the acquired item and
increments the count by exactly one. -/
theorem lazy_get_spec (dflt : V) (s : PoolState V)
    (hclosed : s.closed = false) (hlazy : s.config.lazy = true) :
    (Pool.Get dflt s).1 = (syncPoolGet dflt s).1 ∧
    (s.config.staticSize ≤ s.lazySize →
      (Pool.Get dflt s).2.lazySize = s.lazySize ∧
      (Pool.Get dflt s).2.pinned = s.pinned) ∧
    (s.lazySize < s.config.staticSize →
      (Pool.Get dflt s).2.pinned = s.pinned ++ [(Pool.Get dflt s).1] ∧
      (Pool.Get dflt s).2.lazySize = s.lazySize + 1) := by
  obtain ⟨hcfg, hls, hpin, -⟩ := syncPoolGet_frame dflt s
  have hchar : Pool.Get dflt s =
      (if s.config.staticSize ≤ s.lazySize then syncPoolGet dflt s
       else ((syncPoolGet dflt s).1,
         { (syncPoolGet dflt s).2 with
             pinned := s.pinned ++ [(syncPoolGet dflt s).1],
             lazySize := s.lazySize + 1 })) := by
    unfold Pool.Get
    rw [hclosed]
    by_cases hge : s.config.staticSize ≤ s.lazySize <;>
      simp [hge, hcfg, hls, hlazy, pinnerPin, hpin, ge_iff_le]
  rw [hchar]
  refine ⟨?_, ?_, ?_⟩
  · by_cases hge : s.config.staticSize ≤ s.lazySize
    · rw [if_pos hge]
    · rw [if_neg hge]
  · intro hge
    rw [if_pos hge]
    exact ⟨hls, hpin⟩
  · intro hlt
    rw [if_neg (by omega : ¬s.config.staticSize ≤ s.lazySize)]
    exact ⟨rfl, rfl⟩

def lazyPoolExample : PoolState Int :=
  { config := { staticSize := 2, lazy := true }, heap := [7], pinned := [],
    internalPool := [0], lazySize := 0, closed := false }

theorem lazy_get_witness :
    (Pool.Get (0 : Int) lazyPoolExample).1 = (syncPoolGet 0 lazyPoolExample).1 ∧
    (lazyPoolExample.config.staticSize ≤ lazyPoolExample.lazySize →
      (Pool.Get (0 : Int) lazyPoolExample).2.lazySize = lazyPoolExample.lazySize ∧
      (Pool.Get (0 : Int) lazyPoolExample).2.pinned = lazyPoolExample.pinned) ∧
    (lazyPoolExample.lazySize < lazyPoolExample.config.staticSize →
      (Pool.Get (0 : Int) lazyPoolExample).2.pinned =
        lazyPoolExample.pinned ++ [(Pool.Get (0 : Int) lazyPoolExample).1] ∧
      (Pool.Get (0 : Int) lazyPoolExample).2.lazySize =
        lazyPoolExample.lazySize + 1) :=
  lazy_get_spec 0 lazyPoolExample rfl rfl

/-- C3: after any `Reset` the configuration is forced lazy, the retained
count is 0, every pin has been revoked, the pool is reopened
(`closed = false`) and `staticSize` is unchanged — for every starting state,
including eagerly constructed pools. -/
theorem reset_spec (dflt : V) (s : PoolState V) :
    (Pool.Reset dflt s).config.lazy = true ∧
    (Pool.Reset dflt s).lazySize = 0 ∧
    (Pool.Reset dflt s).pinned = [] ∧
    (Pool.Reset dflt s).closed = false ∧
    (Pool.Reset dflt s).config.staticSize = s.config.staticSize := by
  unfold Pool.Reset Pool.init
  simp [pinnerUnpin]

/-- C4: while the pool is quiesced (`closed = true`), `Get` returns a freshly
factory-built default-valued instance and leaves the reuse pool, the retained
count, the pin set, the configuration and the flag untouched. -/
theorem quiesced_get_spec (dflt : V) (s : PoolState V) (h : s.closed = true) :
    (Pool.Get dflt s).1 = s.heap.length ∧
    (Pool.Get dflt s).2.heap = s.heap ++ [dflt] ∧
    (Pool.Get dflt s).2.heap.getD (Pool.Get dflt s).1 dflt = dflt ∧
    (Pool.Get dflt s).2.internalPool = s.internalPool ∧
    (Pool.Get dflt s).2.lazySize = s.lazySize ∧
    (Pool.Get dflt s).2.pinned = s.pinned ∧
    (Pool.Get dflt s).2.config = s.config ∧
    (Pool.Get dflt s).2.closed = s.closed := by
  unfold Pool.Get
  rw [h]
  simp [allocNew, h]

def closedPoolExample : PoolState Int :=
  { config := defaultConfig, heap := [3], pinned := [0],
    internalPool := [0], lazySize := 1, closed := true }

theorem quiesced_get_witness :
    (Pool.Get (0 : Int) closedPoolExample).1 = closedPoolExample.heap.length ∧
    (Pool.Get (0 : Int) closedPoolExample).2.heap = closedPoolExample.heap ++ [0] ∧
    (Pool.Get (0 : Int) closedPoolExample).2.heap.getD
      (Pool.Get (0 : Int) closedPoolExample).1 0 = 0 ∧
    (Pool.Get (0 : Int) closedPoolExample).2.internalPool =
      closedPoolExample.internalPool ∧
    (Pool.Get (0 : Int) closedPoolExample).2.lazySize = closedPoolExample.lazySize ∧
    (Pool.Get (0 : Int) closedPoolExample).2.pinned = closedPoolExample.pinned ∧
    (Pool.Get (0 : Int) closedPoolExample).2.config = closedPoolExample.config ∧
    (Pool.Get (0 : Int) closedPoolExample).2.closed = closedPoolExample.closed :=
  quiesced_get_spec 0 closedPoolExample rfl

/-- C5: `Put` always applies the resetter to the item and then releases it to
the reuse pool, touches nothing else, and its behaviour is independent of the
retention/pin set. -/
theorem put_spec (reset : V → V) (s : PoolState V) (id : Nat) :
    Pool.Put reset s id =
      { s with heap := heapModify reset id s.heap,
               internalPool := id :: s.internalPool } ∧
    (∀ p : List Nat,
      Pool.Put reset { s with pinned := p } id =
        { Pool.Put reset s id with pinned := p }) :=
  ⟨rfl, fun _ => rfl⟩

/-- The element type of the tests and the example (`Example` /
`ExampleStruct`): `A string`, `B int64`, `C float64`.  The float field only
ever holds the exactly-representable value `0.0` in the scenarios, so it is
modelled by an integer. -/
structure ExampleStruct where
  A : String
  B : Int
  C : Int
  deriving Repr, DecidableEq

def exampleDefault : ExampleStruct := { A := "", B := 0, C := 0 }

/-- The scenario resetter: set `A` to the reset marker, clear `B` and `C`. -/
def exampleReset (es : ExampleStruct) : ExampleStruct :=
  { es with A := "reset", B := 0, C := 0 }

def scenarioPool : PoolState ExampleStruct :=
  New exampleDefault [WithLazy false, WithStaticSize 100]

def scenarioPhase1 : List Nat × PoolState ExampleStruct :=
  getN exampleDefault 100 scenarioPool

def scenarioReturned : PoolState ExampleStruct :=
  putAll exampleReset scenarioPhase1.1 scenarioPhase1.2

def scenarioPhase2 : List Nat × PoolState ExampleStruct :=
  getN exampleDefault 100 scenarioReturned

def scenarioFinal : Nat × PoolState ExampleStruct :=
  Pool.Get exampleDefault scenarioPhase2.2

/-- C6: in the eager `staticSize = 100` scenario, the first 100 `Get`s return
distinct default-valued instances; after `Put`ting all of them back, 100
further `Get`s all bear the reset marker with the other fields default, and
one more `Get` returns a fresh default-valued instance. -/
theorem concrete_scenario_spec :
    (∀ id ∈ scenarioPhase1.1,
      scenarioPhase1.2.heap.getD id exampleDefault = exampleDefault) ∧
    scenarioPhase1.1.length = 100 ∧
    scenarioPhase1.1.Nodup ∧
    (∀ id ∈ scenarioPhase2.1,
      scenarioPhase2.2.heap.getD id exampleDefault =
        { A := "reset", B := 0, C := 0 }) ∧
    scenarioPhase2.1.length = 100 ∧
    scenarioFinal.1 = scenarioPhase2.2.heap.length ∧
    scenarioFinal.2.heap.getD scenarioFinal.1 exampleDefault = exampleDefault := by
  set_option maxRecDepth 100000 in decide

/-- Characterization of `Get` on an open pool: pass-through when non-lazy or
when the counter has reached the target, pin-and-count otherwise. -/
theorem get_char (dflt : V) (s : PoolState V) (hclosed : s.closed = false) :
    Pool.Get dflt s =
      (if s.config.lazy = false then syncPoolGet dflt s
       else if s.config.staticSize ≤ s.lazySize then syncPoolGet dflt s
       else ((syncPoolGet dflt s).1,
         { (syncPoolGet dflt s).2 with
             pinned := (syncPoolGet dflt s).2.pinned ++ [(syncPoolGet dflt s).1],
             lazySize := (syncPoolGet dflt s).2.lazySize + 1 })) := by
  obtain ⟨hcfg, hls, hpin, -⟩ := syncPoolGet_frame dflt s
  unfold Pool.Get
  rw [hclosed]
  by_cases hl : s.config.lazy
  all_goals by_cases hge : s.config.staticSize ≤ s.lazySize
  all_goals simp [hl, hge, hcfg, hls, hpin, pinnerPin, ge_iff_le]

theorem get_lazySize_step (dflt : V) (s : PoolState V)
    (h : s.lazySize ≤ s.config.staticSize) :
    s.lazySize ≤ (Pool.Get dflt s).2.lazySize ∧
    (Pool.Get dflt s).2.lazySize ≤ (Pool.Get dflt s).2.config.staticSize ∧
    (Pool.Get dflt s).2.config = s.config := by
  obtain ⟨hcfg, hls, -, -⟩ := syncPoolGet_frame dflt s
  by_cases hc : s.closed
  · unfold Pool.Get
    simp [hc, allocNew, h]
  · have hc' : s.closed = false := by simpa using hc
    rw [get_char dflt s hc']
    by_cases hl : s.config.lazy = false
    · rw [if_pos hl]
      exact ⟨le_of_eq hls.symm, by rw [hls, hcfg]; exact h, hcfg⟩
    · rw [if_neg hl]
      by_cases hge : s.config.staticSize ≤ s.lazySize
      · rw [if_pos hge]
        exact ⟨le_of_eq hls.symm, by rw [hls, hcfg]; exact h, hcfg⟩
      · rw [if_neg hge]
        refine ⟨?_, ?_, ?_⟩ <;> simp [hls, hcfg] <;> omega

theorem runOps_append (dflt : V) (reset : V → V) (l1 l2 : List Op) (s : PoolState V) :
    runOps dflt reset (l1 ++ l2) s = runOps dflt reset l2 (runOps dflt reset l1 s) := by
  induction l1 generalizing s with
  | nil => rfl
  | cons op rest ih =>
    cases op <;> simp only [List.cons_append, runOps] <;> exact ih _

theorem runOps_lazySize (dflt : V) (reset : V → V) (ops : List Op) (s : PoolState V)
    (h : s.lazySize ≤ s.config.staticSize) :
    s.lazySize ≤ (runOps dflt reset ops s).lazySize ∧
    (runOps dflt reset ops s).lazySize ≤ (runOps dflt reset ops s).config.staticSize ∧
    (runOps dflt reset ops s).config = s.config := by
  induction ops generalizing s with
  | nil => exact ⟨le_refl _, h, rfl⟩
  | cons op rest ih =>
    cases op with
    | get =>
      simp only [runOps]
      obtain ⟨h1, h2, h3⟩ := get_lazySize_step dflt s h
      obtain ⟨h4, h5, h6⟩ := ih (Pool.Get dflt s).2 h2
      exact ⟨le_trans h1 h4, h5, h6.trans h3⟩
    | put id =>
      simp only [runOps]
      exact ih (Pool.Put reset s id) h

/-- C7: for a pool built by `New` with non-negative `staticSize` and any
`Reset`-free sequence of `Get`/`Put` operations, the retained count never
decreases along the trace, and (sequentially — zero racing `Get`s) it never
exceeds `staticSize`. -/
theorem retained_count_invariant (dflt : V) (reset : V → V)
    (opts : List (Config → Config)) (ops1 ops2 : List Op)
    (hpos : 0 ≤ (applyOpts opts defaultConfig).staticSize) :
    (runOps dflt reset ops1 (New dflt opts)).lazySize ≤
      (runOps dflt reset (ops1 ++ ops2) (New dflt opts)).lazySize ∧
    (runOps dflt reset ops1 (New dflt opts)).lazySize ≤
      (applyOpts opts defaultConfig).staticSize := by
  have hbase : (New dflt opts).lazySize ≤ (New dflt opts).config.staticSize := by
    obtain ⟨hc, hl, -⟩ := new_config dflt opts
    rw [hc, hl]
    by_cases h : (applyOpts opts defaultConfig).lazy <;> simp [h, hpos]
  obtain ⟨g1, g2, g3⟩ := runOps_lazySize dflt reset ops1 (New dflt opts) hbase
  obtain ⟨g4, g5, g6⟩ := runOps_lazySize dflt reset ops2
    (runOps dflt reset ops1 (New dflt opts)) g2
  constructor
  · rw [runOps_append]
    exact g4
  · have hss : (runOps dflt reset ops1 (New dflt opts)).config.staticSize =
        (applyOpts opts defaultConfig).staticSize := by
      rw [g3, (new_config dflt opts).1]
    rw [← hss]
    exact g2

theorem retained_count_invariant_witness :
    (runOps () (fun u => u) [Op.get] (New () [])).lazySize ≤
      (runOps () (fun u => u) ([Op.get] ++ [Op.put 0]) (New () [])).lazySize ∧
    (runOps () (fun u => u) [Op.get] (New () [])).lazySize ≤
      (applyOpts [] defaultConfig).staticSize :=
  retained_count_invariant () (fun u => u) [] [Op.get] [Op.put 0] (by decide)

/-- C8: `Reset` is idempotent on the pool state: resetting a just-reset pool
produces the identical state, with retained count 0 and `lazy = true`. -/
theorem reset_idempotent (dflt : V) (s : PoolState V) :
    Pool.Reset dflt (Pool.Reset dflt s) = Pool.Reset dflt s ∧
    (Pool.Reset dflt s).lazySize = 0 ∧
    (Pool.Reset dflt s).config.lazy = true :=
  ⟨rfl, rfl, rfl⟩

/-- C9: `WithStaticSize` does not validate its argument: constructing with
`lazy = false` and a negative `staticSize` makes zero factory calls but still
adds `staticSize` to the counter, leaving a negative retained count. -/
theorem negative_static_size_spec (dflt : V) (n : Int) (hneg : n < 0) :
    (New dflt [WithStaticSize n]).config.staticSize = n ∧
    (New dflt [WithStaticSize n]).config.lazy = false ∧
    (New dflt [WithStaticSize n]).heap.length = 0 ∧
    (New dflt [WithStaticSize n]).lazySize = n ∧
    (New dflt [WithStaticSize n]).lazySize < 0 := by
  have htn : n.toNat = 0 := Int.toNat_of_nonpos (le_of_lt hneg)
  unfold New Pool.init
  simp [applyOpts, WithStaticSize, defaultConfig, htn, initLoop, hneg]

theorem negative_static_size_witness :
    (New (0 : Int) [WithStaticSize (-5)]).config.staticSize = -5 ∧
    (New (0 : Int) [WithStaticSize (-5)]).config.lazy = false ∧
    (New (0 : Int) [WithStaticSize (-5)]).heap.length = 0 ∧
    (New (0 : Int) [WithStaticSize (-5)]).lazySize = -5 ∧
    (New (0 : Int) [WithStaticSize (-5)]).lazySize < 0 :=
  negative_static_size_spec 0 (-5) (by decide)

/-- C10: `New` folds its options in argument order over the default
configuration `{staticSize: 100, lazy: false}`, so the last option writing a
field wins. -/
theorem options_order_spec (dflt : V) :
    defaultConfig = { staticSize := 100, lazy := false } ∧
    (∀ opts : List (Config → Config),
      (New dflt opts).config = applyOpts opts defaultConfig) ∧
    (∀ (opts : List (Config → Config)) (o : Config → Config) (c : Config),
      applyOpts (opts ++ [o]) c = o (applyOpts opts c)) ∧
    (∀ m n : Int,
      (applyOpts [WithStaticSize m, WithStaticSize n] defaultConfig).staticSize = n) ∧
    (∀ a b : Bool, (applyOpts [WithLazy a, WithLazy b] defaultConfig).lazy = b) := by
  refine ⟨rfl, fun opts => (new_config dflt opts).1, ?_, fun m n => rfl, fun a b => rfl⟩
  intro opts o c
  simp [applyOpts]

end StaticSyncPool
